import Mathlib

/-!
Shallow embedding of `src/native/jni/magiskhide/proc_monitor.cpp`, the
MagiskHide process monitor.

Modelling conventions:
* procfs reads are an explicit `ProcFs` view (a field per file the code reads);
  a `none` result models a failing `stat`/`fopen`;
* ptrace requests, the hide-daemon handoff and the timer disarm are recorded
  in an `Effect` trace, in the order the code issues them;
* `std::map<int, vector<string_view>> uid_proc_map` is a total function
  `Int → List String`; a missing key is the empty list (the code only ever
  creates keys via `emplace_back`, so every present key has a non-empty list
  and `find == end` coincides with the empty list on reachable maps);
* `std::map<int, struct stat> zygote_map` is an association list with unique
  keys (the `ZNodup` invariant);
* the global mutable state is a `MonitorState` record threaded explicitly.
-/

namespace ProcMonitor

/-- Linux signal number of `SIGSTOP`. -/
def SIGSTOP : Nat := 19

/-- Linux signal number of `SIGTRAP`. -/
def SIGTRAP : Nat := 5

def PTRACE_EVENT_FORK : Nat := 1

def PTRACE_EVENT_VFORK : Nat := 2

def PTRACE_EVENT_CLONE : Nat := 3

def PTRACE_EVENT_EXEC : Nat := 4

def PTRACE_EVENT_EXIT : Nat := 6

/-- The fields of `struct stat` that the monitor reads. -/
structure StatInfo where
  st_uid : Nat
  st_dev : Nat
  st_ino : Nat
  deriving DecidableEq, Repr

/-- Mount-namespace identity: `(st_dev, st_ino)` of `/proc/<pid>/ns/mnt`. -/
structure NsId where
  dev : Nat
  ino : Nat
  deriving DecidableEq, Repr

/-- Tracing options passed to `PTRACE_SETOPTIONS`. -/
inductive TraceOpt where
  | fork
  | vfork
  | clone
  | exec
  | exit
  deriving DecidableEq, Repr

/-- Externally visible actions of the monitor, in issue order. -/
inductive Effect where
  | detach (pid : Int) (sig : Nat)
  | hideDaemon (pid : Int)
  | ptAttach (pid : Int)
  | ptWait (pid : Int)
  | ptSetOptions (pid : Int) (opts : List TraceOpt)
  | ptCont (pid : Int) (sig : Nat)
  | disarmTimer
  deriving DecidableEq, Repr

/-- The procfs view the monitor reads through.  `procStat pid` is
`stat("/proc/<pid>")`, `cmdline pid` the first nul-terminated argument of
`/proc/<pid>/cmdline`, `mntNs pid` the identity of `/proc/<pid>/ns/mnt`,
`statusTgid pid` the `Tgid:` field of `/proc/<pid>/status` (`none` when the
file is unreadable or the field is absent), and `ppid pid` the value
`parse_ppid` returns (`-1` sentinel on failure). -/
structure ProcFs where
  procStat : Int → Option StatInfo
  cmdline : Int → Option String
  mntNs : Int → Option NsId
  statusTgid : Int → Option Int
  ppid : Int → Int

/-- `is_process`: reads `Tgid:` from `/proc/<pid>/status`; `false` when the
file is unreadable (PID dead) or the field is missing. -/
def is_process (fs : ProcFs) (pid : Int) : Bool :=
  match fs.statusTgid pid with
  | none => false
  | some tgid => tgid == pid

/-- `str_starts(s, pre)` from utils: `s` begins with `pre`. -/
def str_starts (s p : String) : Bool := List.isPrefixOf p.data s.data

/-- `str_ends(s, suf)` from utils: `s` ends with `suf`. -/
def str_ends (s p : String) : Bool := List.isSuffixOf p.data s.data

/-- Modelled from the spec: the isolated-package sentinel `ISOLATED_MAGIC`
(defined in `magiskhide.hpp`, which is not part of the sources here).  Its
concrete value never matters below; only equality with it does. -/
def ISOLATED_MAGIC : String := "isolated"

/-- `uid_proc_map`: uid → list of process names.  Missing key = `[]`. -/
abbrev UidMap := Int → List String

def emptyUidMap : UidMap := fun _ => []

/-- `uid_proc_map[k].emplace_back(v)`. -/
def mapAppend (m : UidMap) (k : Int) (v : String) : UidMap :=
  fun i => if i = k then m i ++ [v] else m i

/-- One iteration of the inner `for (auto &hide : hide_set)` loop of
`update_uid_map`: `ps user pkg` models `stat(<data_root>/<user>/<pkg>)`,
returning the owning uid on success. -/
def uum_step (ps : String → String → Option Int) (firstIter : Bool)
    (user : String) (m : UidMap) (h : String × String) : UidMap :=
  if h.1 = ISOLATED_MAGIC ∧ firstIter = false then m
  else
    let m1 := if h.1 = ISOLATED_MAGIC then mapAppend m (-1) h.2 else m
    match ps user h.1 with
    | none => m1
    | some uid => mapAppend m1 uid h.2

/-- The inner loop of `update_uid_map` over the hide set. -/
def uum_user (ps : String → String → Option Int) (firstIter : Bool)
    (user : String) : List (String × String) → UidMap → UidMap
  | [], m => m
  | h :: t, m => uum_user ps firstIter user t (uum_step ps firstIter user m h)

/-- The outer loop of `update_uid_map` over the remaining (non-first)
per-user directory entries. -/
def uum_users (ps : String → String → Option Int)
    (hide : List (String × String)) : List String → UidMap → UidMap
  | [], m => m
  | u :: us, m => uum_users ps hide us (uum_user ps false u hide m)

/-- `update_uid_map`: clears the map and rebuilds it from the directory
entries under `APP_DATA_DIR` (`users`), the hide set and the filesystem. -/
def update_uid_map (users : List String) (hide : List (String × String))
    (ps : String → String → Option Int) : UidMap :=
  match users with
  | [] => emptyUidMap
  | u :: us => uum_users ps hide us (uum_user ps true u hide emptyUidMap)

/-- `update_uid_map` as a state operation: the previous map contents are
discarded (`uid_proc_map.clear()`) before the rebuild. -/
def update_uid_map_op (_prev : UidMap) (users : List String)
    (hide : List (String × String)) (ps : String → String → Option Int) :
    UidMap :=
  update_uid_map users hide ps

/-- `zygote_map`: zygote pid → mount-namespace identity at attach time. -/
abbrev ZMap := List (Int × NsId)

/-- Unique-key invariant of the association list, as `std::map` guarantees. -/
def ZNodup (z : ZMap) : Prop := (z.map Prod.fst).Nodup

def zlookup (z : ZMap) (pid : Int) : Option NsId :=
  (z.find? (fun e => e.1 == pid)).map Prod.snd

def zupdate (z : ZMap) (pid : Int) (ns : NsId) : ZMap :=
  z.map (fun e => if e.1 == pid then (pid, ns) else e)

def zerase (z : ZMap) (pid : Int) : ZMap :=
  z.filter (fun e => e.1 != pid)

/-- `new_zygote(pid)`: read the mount namespace (return unchanged if
unreadable); if the pid is registered, only update the stored namespace;
otherwise register it, `PTRACE_ATTACH`, wait for the initial stop, enable
fork/vfork/exit tracing and resume. -/
def new_zygote (pid : Int) (fs : ProcFs) (z : ZMap) : ZMap × List Effect :=
  match fs.mntNs pid with
  | none => (z, [])
  | some ns =>
    if (zlookup z pid).isSome then
      (zupdate z pid ns, [])
    else
      (z ++ [(pid, ns)],
        [Effect.ptAttach pid, Effect.ptWait pid,
          Effect.ptSetOptions pid [TraceOpt.fork, TraceOpt.vfork, TraceOpt.exit],
          Effect.ptCont pid 0])

/-- `is_zygote_done`: registry size has reached the per-architecture count
(2 under `__LP64__`, 1 otherwise). -/
def is_zygote_done (lp64 : Bool) (z : ZMap) : Bool :=
  if lp64 then decide (2 ≤ z.length) else decide (1 ≤ z.length)

/-- The per-pid test of the `crawl_procfs` callback in `check_zygote`:
`/proc/<pid>/cmdline` is readable, begins with `"zygote"`, and the parent
pid is 1. -/
def zygote_criteria (fs : ProcFs) (pid : Int) : Bool :=
  match fs.cmdline pid with
  | none => false
  | some c => str_starts c "zygote" && (fs.ppid pid == 1)

/-- The `crawl_procfs` scan of `check_zygote` over the pids in procfs. -/
def cz_scan (fs : ProcFs) : List Int → ZMap × List Effect → ZMap × List Effect
  | [], acc => acc
  | pid :: rest, acc =>
    if zygote_criteria fs pid then
      let r := new_zygote pid fs acc.1
      cz_scan fs rest (r.1, acc.2 ++ r.2)
    else cz_scan fs rest acc

/-- `check_zygote`: scan procfs for zygotes, then disarm the periodic timer
when `is_zygote_done`. -/
def check_zygote (lp64 : Bool) (pids : List Int) (fs : ProcFs) (z : ZMap) :
    ZMap × List Effect :=
  let scan := cz_scan fs pids (z, [])
  if is_zygote_done lp64 scan.1 then (scan.1, scan.2 ++ [Effect.disarmTimer])
  else scan

/-- The literal command lines `check_pid` never treats as targets. -/
def zygoteNames : List String :=
  ["zygote", "zygote32", "zygote64", "usap32", "usap64"]

/-- The mount-namespace double check at the end of `check_pid`'s match loop.
`read_ns`'s result is ignored on failure, in which case the reused
`struct stat` still holds the `/proc/<pid>` stat, so the comparison falls
back to `(st.st_dev, st.st_ino)`. -/
def check_pid_ns (pid : Int) (st : StatInfo) (fs : ProcFs) (z : ZMap) :
    Bool × List Effect :=
  let ns := (fs.mntNs pid).getD (NsId.mk st.st_dev st.st_ino)
  if z.any (fun e => e.2.ino == ns.ino && e.2.dev == ns.dev) then
    (true, [Effect.detach pid 0])
  else
    (true, [Effect.detach pid SIGSTOP, Effect.hideDaemon pid])

/-- The `uid_proc_map.find(uid)` lookup and match loop of `check_pid`.  The
loop skips entries different from the command line, so the first equal entry
(if any) decides; app-zygote names (`_zygote` suffix) are detached without
handoff (`inject_and_hide`). -/
def check_pid_app (pid : Int) (cmd : String) (st : StatInfo) (fs : ProcFs)
    (m : UidMap) (z : ZMap) : Bool × List Effect :=
  match (m (st.st_uid : Int)).find? (fun s => s == cmd) with
  | none => (true, [Effect.detach pid 0])
  | some s =>
    if str_ends s "_zygote" then (true, [Effect.detach pid 0])
    else check_pid_ns pid st fs z

/-- `check_pid`: classify a stopped descendant.  Returns `true` when the pid
was consumed (detached or handed off), `false` when it stays attached for a
later event, together with the effect trace of the call. -/
def check_pid (pid : Int) (fs : ProcFs) (m : UidMap) (z : ZMap) :
    Bool × List Effect :=
  match fs.procStat pid with
  | none => (true, [Effect.detach pid 0])
  | some st =>
    if st.st_uid = 0 then (false, [])
    else
      match fs.cmdline pid with
      | none => (true, [Effect.detach pid 0])
      | some cmd =>
        if cmd ∈ zygoteNames then (false, [])
        else if 90000 < st.st_uid % 100000 then
          if m (-1) = [] then (true, [Effect.detach pid 0])
          else if (m (-1)).any (fun s => str_starts cmd s) then
            (true, [Effect.detach pid 0])
          else check_pid_app pid cmd st fs m z
        else check_pid_app pid cmd st fs m z

/-- `WIFSTOPPED(s)` for a nonnegative wait status. -/
def WIFSTOPPED (s : Nat) : Bool := s % 256 == 0x7f

/-- `WSTOPSIG(s)` for a nonnegative wait status. -/
def WSTOPSIG (s : Nat) : Nat := s / 256 % 256

/-- The `WEVENT` macro of the source: `((s) & 0xffff0000) >> 16`. -/
def WEVENT (s : Nat) : Nat := s / 65536 % 65536

/-- The attach bitmap, viewed as a predicate on pids.  (The out-of-bounds
behaviour of the concrete `bitset`-backed `pid_set` is modelled separately
by `pid_set_index`.) -/
abbrev PidSet := Int → Bool

def clearBit (a : PidSet) (p : Int) : PidSet :=
  fun q => if q = p then false else a q

def setBit (a : PidSet) (p : Int) : PidSet :=
  fun q => if q = p then true else a q

/-- The bitmap updates performed by a list of effects: `detach_pid` clears
the pid's bit before detaching. -/
def applyEffects (a : PidSet) : List Effect → PidSet
  | [] => a
  | Effect.detach p _ :: rest => applyEffects (clearBit a p) rest
  | _ :: rest => applyEffects a rest

/-- Result of one iteration of the `proc_monitor` wait loop. -/
structure StepResult where
  zmap : ZMap
  att : PidSet
  effects : List Effect

/-- One iteration of the `proc_monitor` main loop for a reaped
`(pid, status)`, with `msg` the `PTRACE_GETEVENTMSG` payload. -/
def handle_stop (pid : Int) (status : Nat) (msg : Int) (fs : ProcFs)
    (m : UidMap) (z : ZMap) (att : PidSet) : StepResult :=
  if WIFSTOPPED status = false then
    StepResult.mk z (clearBit att pid) [Effect.detach pid 0]
  else
    let event := WEVENT status
    let signal := WSTOPSIG status
    if signal = SIGTRAP ∧ event ≠ 0 then
      if (zlookup z pid).isSome then
        if event = PTRACE_EVENT_FORK ∨ event = PTRACE_EVENT_VFORK then
          StepResult.mk z (setBit att msg) [Effect.ptCont pid 0]
        else
          StepResult.mk (zerase z pid) (clearBit att pid) [Effect.detach pid 0]
      else
        if event = PTRACE_EVENT_CLONE then
          if att pid then
            let r := check_pid pid fs m z
            if r.1 then StepResult.mk z (applyEffects att r.2) r.2
            else StepResult.mk z (applyEffects att r.2) (r.2 ++ [Effect.ptCont pid 0])
          else StepResult.mk z att [Effect.ptCont pid 0]
        else StepResult.mk z (clearBit att pid) [Effect.detach pid 0]
    else if signal = SIGSTOP then
      if (if att pid then true else is_process fs pid) then
        StepResult.mk z (setBit att pid)
          [Effect.ptSetOptions pid [TraceOpt.clone, TraceOpt.exec, TraceOpt.exit],
            Effect.ptCont pid 0]
      else
        StepResult.mk z (clearBit att pid) [Effect.detach pid 0]
    else StepResult.mk z att [Effect.ptCont pid signal]

def PID_MAX : Nat := 32768

def SIZE_T_CARD : Nat := 2 ^ 64

/-- `pid_set::operator[](pos)` indexes the internal `bitset<PID_MAX>` at
`pos - 1`, computed in `size_t` arithmetic (unsigned wraparound at 0). -/
def pid_set_index (pos : Nat) : Nat := (pos + (SIZE_T_CARD - 1)) % SIZE_T_CARD

/-- The access stays inside the `bitset<PID_MAX>` storage. -/
def pid_set_in_bounds (pos : Nat) : Prop := pid_set_index pos < PID_MAX

/-- The process-wide mutable state of the monitor. -/
structure MonitorState where
  hide_set : List (String × String)
  uid_proc_map : UidMap
  zygote_map : ZMap
  attaches : PidSet

/-- `update_uid_map` as a transition on the monitor state. -/
def update_uid_map_st (users : List String)
    (ps : String → String → Option Int) (st : MonitorState) : MonitorState :=
  MonitorState.mk st.hide_set (update_uid_map users st.hide_set ps)
    st.zygote_map st.attaches

/-- `check_pid` as a transition on the monitor state. -/
def check_pid_st (pid : Int) (fs : ProcFs) (st : MonitorState) :
    MonitorState × Bool × List Effect :=
  let r := check_pid pid fs st.uid_proc_map st.zygote_map
  (MonitorState.mk st.hide_set st.uid_proc_map st.zygote_map
    (applyEffects st.attaches r.2), r)

/-- `new_zygote` as a transition on the monitor state. -/
def new_zygote_st (pid : Int) (fs : ProcFs) (st : MonitorState) :
    MonitorState × List Effect :=
  let r := new_zygote pid fs st.zygote_map
  (MonitorState.mk st.hide_set st.uid_proc_map r.1 st.attaches, r.2)

/-- `check_zygote` as a transition on the monitor state. -/
def check_zygote_st (lp64 : Bool) (pids : List Int) (fs : ProcFs)
    (st : MonitorState) : MonitorState × List Effect :=
  let r := check_zygote lp64 pids fs st.zygote_map
  (MonitorState.mk st.hide_set st.uid_proc_map r.1 st.attaches, r.2)

/-- One main-loop iteration as a transition on the monitor state. -/
def handle_stop_st (pid : Int) (status : Nat) (msg : Int) (fs : ProcFs)
    (st : MonitorState) : MonitorState × List Effect :=
  let r := handle_stop pid status msg fs st.uid_proc_map st.zygote_map st.attaches
  (MonitorState.mk st.hide_set st.uid_proc_map r.zmap r.att, r.effects)

/-- `term_thread`: clears `uid_proc_map`, `zygote_map`, `hide_set` and the
attach bitmap (the lock destruction, `set_hide_state(false)` and the inotify
close have no counterpart in the state model). -/
def term_thread (_s : MonitorState) : MonitorState :=
  MonitorState.mk [] emptyUidMap [] (fun _ => false)

/-! ### Concrete scenario inputs

Closed procfs views, maps and states on which the theorems below are
instantiated.  `fsT`/`mT`/`zT` is the "target app starts" scenario of the
spec: pid 100 has applied uid 10042 and command line `com.example.target`,
the hide set resolved that name to uid 10042, and one zygote (pid 50) is
registered with a different mount namespace. -/

def stT : StatInfo := StatInfo.mk 10042 3 4

def fsT : ProcFs :=
  ProcFs.mk
    (fun p => if p = 100 then some stT else none)
    (fun p => if p = 100 then some "com.example.target" else none)
    (fun p => if p = 100 then some (NsId.mk 11 12) else none)
    (fun _ => none)
    (fun _ => -1)

def mT : UidMap :=
  fun k => if k = (10042 : Int) then ["com.example.target"] else []

def zT : ZMap := [(50, NsId.mk 5 6)]

/-- As `fsT`, but pid 100 still shares zygote 50's mount namespace. -/
def fsC2 : ProcFs :=
  ProcFs.mk
    (fun p => if p = 100 then some stT else none)
    (fun p => if p = 100 then some "com.example.target" else none)
    (fun p => if p = 100 then some (NsId.mk 5 6) else none)
    (fun _ => none)
    (fun _ => -1)

/-- Refresh scenario: one user `"0"`, hide set with two packages sharing one
process name, and only package `"b"`'s data directory existing (uid 10). -/
def usersC3 : List String := ["0"]

def hideC3 : List (String × String) := [("a", "p"), ("b", "p")]

def psC3 : String → String → Option Int :=
  fun u p => if u = "0" ∧ p = "b" then some 10 else none

/-- Registry with two zygotes, pid 40's namespace now reads as `(7, 8)`. -/
def zW : ZMap := [(40, NsId.mk 1 2), (41, NsId.mk 1 3)]

def fsW : ProcFs :=
  ProcFs.mk (fun _ => none) (fun _ => none)
    (fun p => if p = 40 then some (NsId.mk 7 8) else none)
    (fun _ => none) (fun _ => -1)

/-- Isolated-range boundary inputs: pid 200 with uid `10090000` (resp.
`10090001`), command line configured under that very uid. -/
def st6a : StatInfo := StatInfo.mk 10090000 3 4

def st6b : StatInfo := StatInfo.mk 10090001 3 4

def fs6a : ProcFs :=
  ProcFs.mk
    (fun p => if p = 200 then some st6a else none)
    (fun p => if p = 200 then some "com.example.target" else none)
    (fun p => if p = 200 then some (NsId.mk 11 12) else none)
    (fun _ => none)
    (fun _ => -1)

def fs6b : ProcFs :=
  ProcFs.mk
    (fun p => if p = 200 then some st6b else none)
    (fun p => if p = 200 then some "com.example.target" else none)
    (fun p => if p = 200 then some (NsId.mk 11 12) else none)
    (fun _ => none)
    (fun _ => -1)

def m6a : UidMap :=
  fun k =>
    if k = (10090000 : Int) then ["com.example.target"]
    else if k = (-1 : Int) then ["com.example.iso"] else []

def m6b : UidMap :=
  fun k => if k = (10090001 : Int) then ["com.example.target"] else []

/-- Zygote-scan scenario: pid 40 is a fresh zygote (cmdline `zygote`,
parent 1, readable namespace), on a 32-bit build. -/
def fs7 : ProcFs :=
  ProcFs.mk (fun _ => none)
    (fun p => if p = 40 then some "zygote" else none)
    (fun p => if p = 40 then some (NsId.mk 7 8) else none)
    (fun _ => none)
    (fun p => if p = 40 then 1 else -1)

/-- Monitor state with a non-empty hide set. -/
def st8 : MonitorState :=
  MonitorState.mk [("com.example.target", "com.example.target")]
    emptyUidMap [] (fun _ => false)

/-- Procfs views for the thread-vs-process check: pid 300 is a thread-group
leader (`Tgid = 300`), pid 301 is a thread of group 999. -/
def fs9 : ProcFs :=
  ProcFs.mk (fun _ => none) (fun _ => none) (fun _ => none)
    (fun p => if p = 300 then some 300 else if p = 301 then some 999 else none)
    (fun _ => -1)

/-- Wait status encoding a `SIGSTOP` ptrace stop:
`0x7f | (SIGSTOP << 8)`. -/
def status9 : Nat := 0x7f + 256 * SIGSTOP

/-! ### Helper lemmas -/

theorem find?_beq_self {l : List String} {c : String} (h : c ∈ l) :
    l.find? (fun s => s == c) = some c := by
  induction l with
  | nil => cases h
  | cons a t ih =>
    rcases List.mem_cons.mp h with rfl | ht
    · simp [List.find?]
    · by_cases hac : a = c
      · subst hac; simp [List.find?]
      · have hb : (a == c) = false := by simpa using hac
        simp only [List.find?, hb]
        exact ih ht

theorem zlookup_cons (e : Int × NsId) (t : ZMap) (pid : Int) :
    zlookup (e :: t) pid = if e.1 == pid then some e.2 else zlookup t pid := by
  cases h : e.1 == pid <;> simp [zlookup, List.find?, h]

theorem zlookup_zupdate_self (z : ZMap) (pid : Int) (ns : NsId)
    (h : (zlookup z pid).isSome = true) :
    zlookup (zupdate z pid ns) pid = some ns := by
  induction z with
  | nil => simp [zlookup] at h
  | cons e t ih =>
    by_cases he : e.1 = pid
    · simp [zupdate, zlookup, List.find?, he]
    · have hb : (e.1 == pid) = false := by simpa using he
      rw [zlookup_cons, hb, if_neg (by simp)] at h
      simp only [zupdate, List.map_cons, hb, Bool.false_eq_true, if_neg,
        ite_false]
      rw [zlookup_cons, hb, if_neg (by simp)]
      exact ih h

theorem countP_zupdate (z : ZMap) (pid : Int) (ns : NsId) :
    (zupdate z pid ns).countP (fun e => e.1 == pid)
      = z.countP (fun e => e.1 == pid) := by
  induction z with
  | nil => rfl
  | cons e t ih =>
    have hz : zupdate (e :: t) pid ns
        = (if e.1 == pid then (pid, ns) else e) :: zupdate t pid ns := rfl
    rw [hz]
    cases hb : (e.1 == pid) with
    | false => simp [hb, List.countP_cons, ih]
    | true => simp [hb, List.countP_cons, ih]

theorem countP_eq_one_of_nodup (z : ZMap) (pid : Int) (hnd : ZNodup z)
    (h : (zlookup z pid).isSome = true) :
    z.countP (fun e => e.1 == pid) = 1 := by
  induction z with
  | nil => simp [zlookup] at h
  | cons e t ih =>
    have hnd' : (e.1 :: t.map Prod.fst).Nodup := hnd
    obtain ⟨hne, hndt⟩ := List.nodup_cons.mp hnd'
    by_cases he : e.1 = pid
    · have hzero : t.countP (fun x => x.1 == pid) = 0 := by
        rw [List.countP_eq_zero]
        intro x hx
        simp only [beq_iff_eq]
        intro hxp
        exact hne (by
          rw [he, ← hxp]
          exact List.mem_map_of_mem Prod.fst hx)
      simp [List.countP_cons, he, hzero]
    · have hb : (e.1 == pid) = false := by simpa using he
      rw [zlookup_cons, hb, if_neg (by simp)] at h
      simp [List.countP_cons, hb, ih hndt h]

theorem zlookup_isSome_iff (z : ZMap) (pid : Int) :
    (zlookup z pid).isSome = true ↔ pid ∈ z.map Prod.fst := by
  induction z with
  | nil => simp [zlookup]
  | cons e t ih =>
    rw [zlookup_cons]
    by_cases hb : e.1 = pid
    · simp [hb]
    · have hbf : (e.1 == pid) = false := by simpa using hb
      simp [hbf, ih, Ne.symm hb]

theorem zupdate_keys (z : ZMap) (p : Int) (ns : NsId) :
    (zupdate z p ns).map Prod.fst = z.map Prod.fst := by
  induction z with
  | nil => rfl
  | cons e t ih =>
    have hz : zupdate (e :: t) p ns
        = (if e.1 == p then (p, ns) else e) :: zupdate t p ns := rfl
    rw [hz, List.map_cons, List.map_cons, ih]
    cases hb : (e.1 == p) with
    | false => simp [hb]
    | true =>
      have he : e.1 = p := by simpa using hb
      simp [hb, he]

theorem disarm_not_mem_new_zygote (pid : Int) (fs : ProcFs) (z : ZMap) :
    Effect.disarmTimer ∉ (new_zygote pid fs z).2 := by
  cases h : fs.mntNs pid with
  | none => simp [new_zygote, h]
  | some ns =>
    simp only [new_zygote, h]
    split <;> simp

theorem disarm_not_mem_cz_scan (fs : ProcFs) (pids : List Int)
    (acc : ZMap × List Effect) (h : Effect.disarmTimer ∉ acc.2) :
    Effect.disarmTimer ∉ (cz_scan fs pids acc).2 := by
  induction pids generalizing acc with
  | nil => simpa [cz_scan] using h
  | cons p rest ih =>
    simp only [cz_scan]
    split
    · exact ih _ (by
        simp only [List.mem_append]
        rintro (hl | hr)
        · exact h hl
        · exact disarm_not_mem_new_zygote p fs acc.1 hr)
    · exact ih _ h

theorem new_zygote_mem_preserved (p pid : Int) (fs : ProcFs) (z : ZMap)
    (h : (zlookup z pid).isSome = true) :
    (zlookup (new_zygote p fs z).1 pid).isSome = true := by
  cases hns : fs.mntNs p with
  | none => simpa [new_zygote, hns] using h
  | some ns =>
    simp only [new_zygote, hns]
    cases hr : (zlookup z p).isSome with
    | true =>
      simp only [hr, if_pos]
      rw [zlookup_isSome_iff, zupdate_keys, ← zlookup_isSome_iff]
      exact h
    | false =>
      simp only [hr, Bool.false_eq_true, if_neg, ite_false]
      rw [zlookup_isSome_iff, List.map_append, List.mem_append]
      exact Or.inl ((zlookup_isSome_iff z pid).mp h)

theorem new_zygote_registers (p : Int) (fs : ProcFs) (z : ZMap) (ns : NsId)
    (hns : fs.mntNs p = some ns) :
    (zlookup (new_zygote p fs z).1 p).isSome = true := by
  simp only [new_zygote, hns]
  cases hr : (zlookup z p).isSome with
  | true =>
    simp only [hr, if_pos]
    rw [zlookup_zupdate_self z p ns hr]
    rfl
  | false =>
    simp only [hr, Bool.false_eq_true, if_neg, ite_false]
    rw [zlookup_isSome_iff, List.map_append, List.mem_append]
    exact Or.inr (by simp)

theorem cz_scan_mem_preserved (fs : ProcFs) (pids : List Int)
    (acc : ZMap × List Effect) (pid : Int)
    (h : (zlookup acc.1 pid).isSome = true) :
    (zlookup (cz_scan fs pids acc).1 pid).isSome = true := by
  induction pids generalizing acc with
  | nil => simpa [cz_scan] using h
  | cons p rest ih =>
    simp only [cz_scan]
    split
    · exact ih _ (new_zygote_mem_preserved p pid fs acc.1 h)
    · exact ih _ h

theorem cz_scan_registers (fs : ProcFs) (pids : List Int) (pid : Int)
    (hc : zygote_criteria fs pid = true) (hns : (fs.mntNs pid).isSome = true) :
    ∀ acc : ZMap × List Effect, pid ∈ pids →
      (zlookup (cz_scan fs pids acc).1 pid).isSome = true := by
  induction pids with
  | nil => intro acc hmem; cases hmem
  | cons p rest ih =>
    intro acc hmem
    rcases List.mem_cons.mp hmem with rfl | ht
    · simp only [cz_scan, hc, if_pos]
      obtain ⟨ns, hns2⟩ := Option.isSome_iff_exists.mp hns
      exact cz_scan_mem_preserved fs rest _ pid
        (new_zygote_registers pid fs acc.1 ns hns2)
    · simp only [cz_scan]
      split
      · exact ih _ ht
      · exact ih _ ht

theorem mem_mapAppend {m : UidMap} {k q : Int} {v w : String} :
    v ∈ mapAppend m q w k ↔ (v ∈ m k ∨ (k = q ∧ v = w)) := by
  unfold mapAppend
  by_cases h : k = q
  · subst h; simp
  · simp [h]

theorem mem_uum_step_mono {ps : String → String → Option Int}
    {fi : Bool} {u : String} {m : UidMap} {h : String × String}
    {k : Int} {v : String} (hv : v ∈ m k) :
    v ∈ uum_step ps fi u m h k := by
  by_cases h1 : h.1 = ISOLATED_MAGIC ∧ fi = false
  · simpa [uum_step, h1] using hv
  · have hm1 : v ∈ (if h.1 = ISOLATED_MAGIC then mapAppend m (-1) h.2 else m) k := by
      split
      · exact mem_mapAppend.mpr (Or.inl hv)
      · exact hv
    simp only [uum_step, if_neg h1]
    cases hps : ps u h.1 with
    | none => simpa using hm1
    | some uid => exact mem_mapAppend.mpr (Or.inl hm1)

theorem mem_uum_user_mono (ps : String → String → Option Int) (fi : Bool)
    (u : String) (hide : List (String × String)) {m : UidMap} {k : Int}
    {v : String} (hv : v ∈ m k) : v ∈ uum_user ps fi u hide m k := by
  induction hide generalizing m with
  | nil => simpa [uum_user] using hv
  | cons h t ih =>
    simp only [uum_user]
    exact ih (mem_uum_step_mono hv)

theorem mem_uum_users_mono (ps : String → String → Option Int)
    (hide : List (String × String)) (us : List String) {m : UidMap}
    {k : Int} {v : String} (hv : v ∈ m k) :
    v ∈ uum_users ps hide us m k := by
  induction us generalizing m with
  | nil => simpa [uum_users] using hv
  | cons u t ih =>
    simp only [uum_users]
    exact ih (mem_uum_user_mono ps false u hide hv)

theorem mem_uum_step_sound {ps : String → String → Option Int} {fi : Bool}
    {u : String} {m : UidMap} {h : String × String} {k : Int} {v : String}
    (hv : v ∈ uum_step ps fi u m h k) :
    v ∈ m k
    ∨ (v = h.2 ∧ ((h.1 = ISOLATED_MAGIC ∧ fi = true ∧ k = -1)
        ∨ ps u h.1 = some k)) := by
  by_cases h1 : h.1 = ISOLATED_MAGIC ∧ fi = false
  · left; simpa [uum_step, h1] using hv
  · have hfi : h.1 = ISOLATED_MAGIC → fi = true := by
      intro hiso
      cases hf : fi
      · exact absurd ⟨hiso, hf⟩ h1
      · rfl
    simp only [uum_step, if_neg h1] at hv
    cases hps : ps u h.1 with
    | none =>
      rw [hps] at hv
      by_cases hiso : h.1 = ISOLATED_MAGIC
      · rw [if_pos hiso] at hv
        rcases mem_mapAppend.mp hv with hm | ⟨hk, hveq⟩
        · exact Or.inl hm
        · exact Or.inr ⟨hveq, Or.inl ⟨hiso, hfi hiso, hk⟩⟩
      · rw [if_neg hiso] at hv
        exact Or.inl hv
    | some uid =>
      rw [hps] at hv
      rcases mem_mapAppend.mp hv with hv1 | ⟨hk, hveq⟩
      · by_cases hiso : h.1 = ISOLATED_MAGIC
        · rw [if_pos hiso] at hv1
          rcases mem_mapAppend.mp hv1 with hm | ⟨hk, hveq⟩
          · exact Or.inl hm
          · exact Or.inr ⟨hveq, Or.inl ⟨hiso, hfi hiso, hk⟩⟩
        · rw [if_neg hiso] at hv1
          exact Or.inl hv1
      · exact Or.inr ⟨hveq, Or.inr (by rw [hk])⟩

theorem mem_uum_user_sound {ps : String → String → Option Int} {fi : Bool}
    {u : String} {hide : List (String × String)} {m : UidMap} {k : Int}
    {v : String} (hv : v ∈ uum_user ps fi u hide m k) :
    v ∈ m k
    ∨ ∃ h ∈ hide, v = h.2 ∧ ((h.1 = ISOLATED_MAGIC ∧ fi = true ∧ k = -1)
        ∨ ps u h.1 = some k) := by
  induction hide generalizing m with
  | nil => left; simpa [uum_user] using hv
  | cons h t ih =>
    simp only [uum_user] at hv
    rcases ih hv with hm | ⟨h2, hh2, rest⟩
    · rcases mem_uum_step_sound hm with hm2 | hcase
      · exact Or.inl hm2
      · exact Or.inr ⟨h, List.mem_cons_self h t, hcase⟩
    · exact Or.inr ⟨h2, List.mem_cons_of_mem _ hh2, rest⟩

theorem mem_uum_users_sound {ps : String → String → Option Int}
    {hide : List (String × String)} {us : List String} {m : UidMap}
    {k : Int} {v : String} (hv : v ∈ uum_users ps hide us m k) :
    v ∈ m k ∨ ∃ h ∈ hide, v = h.2 ∧ ∃ u ∈ us, ps u h.1 = some k := by
  induction us generalizing m with
  | nil => left; simpa [uum_users] using hv
  | cons u t ih =>
    simp only [uum_users] at hv
    rcases ih hv with hm | ⟨h, hh, hveq, u2, hu2, hps⟩
    · rcases mem_uum_user_sound hm with hm2 | ⟨h, hh, hveq, hcase⟩
      · exact Or.inl hm2
      · rcases hcase with ⟨_, hfi, _⟩ | hps
        · cases hfi
        · exact Or.inr ⟨h, hh, hveq, u, List.mem_cons_self u t, hps⟩
    · exact Or.inr ⟨h, hh, hveq, u2, List.mem_cons_of_mem _ hu2, hps⟩

theorem mem_update_uid_map_sound {users : List String}
    {hide : List (String × String)} {ps : String → String → Option Int}
    {k : Int} {v : String} (hv : v ∈ update_uid_map users hide ps k) :
    ∃ h ∈ hide, v = h.2
      ∧ ((h.1 = ISOLATED_MAGIC ∧ k = -1) ∨ ∃ u ∈ users, ps u h.1 = some k) := by
  cases users with
  | nil => simp [update_uid_map, emptyUidMap] at hv
  | cons u us =>
    simp only [update_uid_map] at hv
    rcases mem_uum_users_sound hv with hbase | ⟨h, hh, hveq, u2, hu2, hps⟩
    · rcases mem_uum_user_sound hbase with hempty | ⟨h, hh, hveq, hcase⟩
      · simp [emptyUidMap] at hempty
      · rcases hcase with ⟨hiso, _, hk⟩ | hps
        · exact ⟨h, hh, hveq, Or.inl ⟨hiso, hk⟩⟩
        · exact ⟨h, hh, hveq, Or.inr ⟨u, List.mem_cons_self u us, hps⟩⟩
    · exact ⟨h, hh, hveq, Or.inr ⟨u2, List.mem_cons_of_mem _ hu2, hps⟩⟩

theorem mem_uum_step_complete {ps : String → String → Option Int} {fi : Bool}
    {u : String} {m : UidMap} {h : String × String} {k : Int}
    (hniso : h.1 ≠ ISOLATED_MAGIC) (hps : ps u h.1 = some k) :
    h.2 ∈ uum_step ps fi u m h k := by
  have h1 : ¬(h.1 = ISOLATED_MAGIC ∧ fi = false) := fun hc => hniso hc.1
  simp only [uum_step, if_neg h1, if_neg hniso, hps]
  exact mem_mapAppend.mpr (Or.inr ⟨rfl, rfl⟩)

theorem mem_uum_user_complete {ps : String → String → Option Int} {fi : Bool}
    {u : String} {hide : List (String × String)} {m : UidMap} {k : Int}
    {pkg proc : String} (hmem : (pkg, proc) ∈ hide)
    (hniso : pkg ≠ ISOLATED_MAGIC) (hps : ps u pkg = some k) :
    proc ∈ uum_user ps fi u hide m k := by
  induction hide generalizing m with
  | nil => cases hmem
  | cons h t ih =>
    rcases List.mem_cons.mp hmem with heq | ht
    · rw [← heq]
      simp only [uum_user]
      exact mem_uum_user_mono ps fi u t
        (mem_uum_step_complete (h := (pkg, proc)) hniso hps)
    · simp only [uum_user]
      exact ih ht

theorem mem_uum_users_complete {ps : String → String → Option Int}
    {hide : List (String × String)} {k : Int} {pkg proc u : String}
    (hmem : (pkg, proc) ∈ hide) (hniso : pkg ≠ ISOLATED_MAGIC)
    (hps : ps u pkg = some k) :
    ∀ us : List String, u ∈ us → ∀ m : UidMap,
      proc ∈ uum_users ps hide us m k := by
  intro us
  induction us with
  | nil => intro hu; cases hu
  | cons u2 t ih =>
    intro hu m
    rcases List.mem_cons.mp hu with rfl | ht
    · simp only [uum_users]
      exact mem_uum_users_mono ps hide t (mem_uum_user_complete hmem hniso hps)
    · simp only [uum_users]
      exact ih ht _

theorem mem_update_uid_map_complete {users : List String}
    {hide : List (String × String)} {ps : String → String → Option Int}
    {k : Int} {pkg proc u : String}
    (hu : u ∈ users) (hmem : (pkg, proc) ∈ hide)
    (hniso : pkg ≠ ISOLATED_MAGIC) (hps : ps u pkg = some k) :
    proc ∈ update_uid_map users hide ps k := by
  cases users with
  | nil => cases hu
  | cons u0 us =>
    simp only [update_uid_map]
    rcases List.mem_cons.mp hu with rfl | ht
    · exact mem_uum_users_mono ps hide us (mem_uum_user_complete hmem hniso hps)
    · exact mem_uum_users_complete hmem hniso hps us ht _

/-! ### Claims -/

/-- C1: a descendant that classification identifies as a final target (uid
non-root, command line exactly equal to a configured process name for that
uid, name not ending in `_zygote`, mount-namespace identity different from
every registered zygote's) is handed to the hide daemon exactly once, and
only after being detached with `SIGSTOP`: the effect trace of `check_pid` is
precisely `[detach pid SIGSTOP, hideDaemon pid]` and the pid is consumed. -/
theorem C1_final_target_handoff (pid : Int) (fs : ProcFs) (m : UidMap)
    (z : ZMap) (st : StatInfo) (cmd : String) (ns : NsId)
    (hstat : fs.procStat pid = some st) (huid : st.st_uid ≠ 0)
    (hcmd : fs.cmdline pid = some cmd) (hzn : cmd ∉ zygoteNames)
    (hiso : st.st_uid % 100000 ≤ 90000)
    (hmem : cmd ∈ m (st.st_uid : Int))
    (hnapp : str_ends cmd "_zygote" = false)
    (hns : fs.mntNs pid = some ns)
    (hdist : ∀ e ∈ z, ¬(e.2.ino = ns.ino ∧ e.2.dev = ns.dev)) :
    check_pid pid fs m z
      = (true, [Effect.detach pid SIGSTOP, Effect.hideDaemon pid]) := by
  have hlt : ¬ 90000 < st.st_uid % 100000 := Nat.not_lt.mpr hiso
  have hfind := find?_beq_self hmem
  have hany : z.any (fun e => e.2.ino == ns.ino && e.2.dev == ns.dev) = false := by
    rw [List.any_eq_false]
    intro e he
    have hd := hdist e he
    simp only [Bool.and_eq_true, beq_iff_eq]
    tauto
  simp [check_pid, hstat, hcmd, huid, hzn, hlt, check_pid_app, hfind, hnapp,
    check_pid_ns, hns, hany]

/-- C1 witness: the "target app starts" scenario. -/
theorem C1_witness :
    check_pid 100 fsT mT zT
      = (true, [Effect.detach 100 SIGSTOP, Effect.hideDaemon 100]) :=
  C1_final_target_handoff 100 fsT mT zT stT "com.example.target" (NsId.mk 11 12)
    rfl (by decide) rfl (by decide) (by decide) (by decide) (by decide) rfl
    (by decide)

/-- C2 counterexample: under a uid/command-line match whose mount namespace
equals registered zygote 50's, `check_pid` detaches pid 100 and reports it
consumed — the pid is *not* left attached for a later reclassification, so
the claim as stated fails. -/
theorem C2_counterexample :
    (check_pid 100 fsC2 mT zT).1 = true
    ∧ Effect.detach 100 0 ∈ (check_pid 100 fsC2 mT zT).2 := by
  decide

/-- C2 (amended): when classification finds a descendant whose uid and
command line match a configured target but whose mount-namespace identity
equals that of some registered zygote, the pid is treated as not-a-target:
it is detached without `SIGSTOP`, consumed, and the hide daemon is not
invoked. -/
theorem C2_ns_shared_detach (pid : Int) (fs : ProcFs) (m : UidMap)
    (z : ZMap) (st : StatInfo) (cmd : String) (ns : NsId)
    (hstat : fs.procStat pid = some st) (huid : st.st_uid ≠ 0)
    (hcmd : fs.cmdline pid = some cmd) (hzn : cmd ∉ zygoteNames)
    (hiso : st.st_uid % 100000 ≤ 90000)
    (hmem : cmd ∈ m (st.st_uid : Int))
    (hnapp : str_ends cmd "_zygote" = false)
    (hns : fs.mntNs pid = some ns)
    (hshared : ∃ e ∈ z, e.2.ino = ns.ino ∧ e.2.dev = ns.dev) :
    check_pid pid fs m z = (true, [Effect.detach pid 0]) := by
  have hlt : ¬ 90000 < st.st_uid % 100000 := Nat.not_lt.mpr hiso
  have hfind := find?_beq_self hmem
  have hany : z.any (fun e => e.2.ino == ns.ino && e.2.dev == ns.dev) = true := by
    rw [List.any_eq_true]
    obtain ⟨e, he, h1, h2⟩ := hshared
    exact ⟨e, he, by simp [h1, h2]⟩
  simp [check_pid, hstat, hcmd, huid, hzn, hlt, check_pid_app, hfind, hnapp,
    check_pid_ns, hns, hany]

/-- C2 witness: the shared-namespace scenario, via the amended theorem. -/
theorem C2_witness :
    check_pid 100 fsC2 mT zT = (true, [Effect.detach 100 0]) :=
  C2_ns_shared_detach 100 fsC2 mT zT stT "com.example.target" (NsId.mk 5 6)
    rfl (by decide) rfl (by decide) (by decide) (by decide) (by decide) rfl
    ⟨(50, NsId.mk 5 6), by decide, by decide, by decide⟩

/-- C4: `refresh()` is idempotent: rebuilding from the same hide set and
filesystem yields the same map, and the result never depends on the
previous map contents (`uid_proc_map.clear()` discards them). -/
theorem C4_refresh_idempotent (prev prev2 : UidMap) (users : List String)
    (hide : List (String × String)) (ps : String → String → Option Int) :
    update_uid_map_op (update_uid_map_op prev users hide ps) users hide ps
      = update_uid_map_op prev users hide ps
    ∧ update_uid_map_op prev users hide ps
      = update_uid_map_op prev2 users hide ps :=
  ⟨rfl, rfl⟩

/-- C6: classification treats a uid as isolated exactly when
`uid % 100000 > 90000`: at `uid % 100000 = 90000` the isolated-bucket lookup
is skipped and `check_pid` proceeds directly to the per-uid match loop; at
`uid % 100000 = 90001` the bucket lookup is taken first — in particular an
absent bucket then short-circuits to not-a-target regardless of the per-uid
entries. -/
theorem C6_isolated_uid_boundary (pid : Int) (fs : ProcFs) (m : UidMap)
    (z : ZMap) (st : StatInfo) (cmd : String)
    (hstat : fs.procStat pid = some st) (huid : st.st_uid ≠ 0)
    (hcmd : fs.cmdline pid = some cmd) (hzn : cmd ∉ zygoteNames) :
    (st.st_uid % 100000 = 90000 →
      check_pid pid fs m z = check_pid_app pid cmd st fs m z)
    ∧ (st.st_uid % 100000 = 90001 → m (-1) = [] →
      check_pid pid fs m z = (true, [Effect.detach pid 0])) := by
  constructor
  · intro h
    have hlt : ¬ 90000 < st.st_uid % 100000 := by omega
    simp [check_pid, hstat, hcmd, huid, hzn, hlt]
  · intro h hm
    have hlt : 90000 < st.st_uid % 100000 := by omega
    simp [check_pid, hstat, hcmd, huid, hzn, hlt, hm]

/-- C6 witness: uid `10090000` falls through to the per-uid lookup (and, the
map having a matching entry, would be handed off), while uid `10090001` with
an absent isolated bucket is immediately not-a-target. -/
theorem C6_witness :
    (check_pid 200 fs6a m6a []
      = check_pid_app 200 "com.example.target" st6a fs6a m6a [])
    ∧ check_pid 200 fs6b m6b [] = (true, [Effect.detach 200 0]) := by
  constructor
  · exact (C6_isolated_uid_boundary 200 fs6a m6a [] st6a "com.example.target"
      rfl (by decide) rfl (by decide)).1 (by decide)
  · exact (C6_isolated_uid_boundary 200 fs6b m6b [] st6b "com.example.target"
      rfl (by decide) rfl (by decide)).2 (by decide) (by decide)

/-- C8 counterexample: `term_thread` empties the hide set (`hide_set.clear()`),
so termination *does* mutate it, contrary to the claim's "every operation of
the monitor" scope. -/
theorem C8_counterexample : (term_thread st8).hide_set ≠ st8.hide_set := by
  decide

/-- C8 (amended): classification, refresh, zygote handling and main-loop
dispatch never mutate the hide set — the monitor only reads it — but
termination (`term_thread`) clears it together with all other monitor
state. -/
theorem C8_hide_set_frame (s : MonitorState) (users : List String)
    (ps : String → String → Option Int) (pid : Int) (status : Nat)
    (msg : Int) (fs : ProcFs) (lp64 : Bool) (pids : List Int) :
    (update_uid_map_st users ps s).hide_set = s.hide_set
    ∧ ((check_pid_st pid fs s).1).hide_set = s.hide_set
    ∧ ((new_zygote_st pid fs s).1).hide_set = s.hide_set
    ∧ ((check_zygote_st lp64 pids fs s).1).hide_set = s.hide_set
    ∧ ((handle_stop_st pid status msg fs s).1).hide_set = s.hide_set
    ∧ (term_thread s).hide_set = [] :=
  ⟨rfl, rfl, rfl, rfl, rfl, rfl⟩

/-- C9: on a `SIGSTOP` stop for a pid whose attach bit is clear, the
thread-group-leader double check decides: a non-leader (Tgid ≠ pid, or
unreadable status) is detached with no tracing options enabled and its bit
stays clear; a leader gets its bit set, clone/exec/exit tracing enabled, and
is resumed. -/
theorem C9_sigstop_thread_check (pid : Int) (status : Nat) (msg : Int)
    (fs : ProcFs) (m : UidMap) (z : ZMap) (att : PidSet)
    (hstop : WIFSTOPPED status = true) (hsig : WSTOPSIG status = SIGSTOP)
    (hbit : att pid = false) :
    (is_process fs pid = false →
      handle_stop pid status msg fs m z att
        = StepResult.mk z (clearBit att pid) [Effect.detach pid 0])
    ∧ (is_process fs pid = true →
      handle_stop pid status msg fs m z att
        = StepResult.mk z (setBit att pid)
            [Effect.ptSetOptions pid [TraceOpt.clone, TraceOpt.exec, TraceOpt.exit],
              Effect.ptCont pid 0]) := by
  constructor
  · intro h
    simp [handle_stop, hstop, hsig, hbit, h, SIGSTOP, SIGTRAP]
  · intro h
    simp [handle_stop, hstop, hsig, hbit, h, SIGSTOP, SIGTRAP]

/-- C9 witness: thread pid 301 (Tgid 999) is detached; leader pid 300 gets
options and resume. -/
theorem C9_witness :
    (handle_stop 301 status9 0 fs9 emptyUidMap [] (fun _ => false)
      = StepResult.mk [] (clearBit (fun _ => false) 301) [Effect.detach 301 0])
    ∧ (handle_stop 300 status9 0 fs9 emptyUidMap [] (fun _ => false)
      = StepResult.mk [] (setBit (fun _ => false) 300)
          [Effect.ptSetOptions 300 [TraceOpt.clone, TraceOpt.exec, TraceOpt.exit],
            Effect.ptCont 300 0]) := by
  constructor
  · exact (C9_sigstop_thread_check 301 status9 0 fs9 emptyUidMap []
      (fun _ => false) (by decide) (by decide) rfl).1 (by decide)
  · exact (C9_sigstop_thread_check 300 status9 0 fs9 emptyUidMap []
      (fun _ => false) (by decide) (by decide) rfl).2 (by decide)

/-- C10: the attach bitmap stores pid `p` at internal index `p - 1`
(computed in `size_t` arithmetic), so the access stays inside the
`bitset<32768>` exactly for pids in `[1, 32768]`: pid 0 wraps around to
index `2^64 - 1` and any pid above 32768 indexes past the end. -/
theorem C10_pid_set_bounds (pos : Nat) (hpos : pos < SIZE_T_CARD) :
    pid_set_in_bounds pos ↔ (1 ≤ pos ∧ pos ≤ PID_MAX) := by
  have hc : SIZE_T_CARD = 18446744073709551616 := by norm_num [SIZE_T_CARD]
  simp only [pid_set_in_bounds, pid_set_index, PID_MAX, hc] at *
  omega

/-- C3 counterexample: packages `"a"` and `"b"` share process name `"p"`;
only `"b"`'s data directory exists (owning uid 10).  After the rebuild,
`"p"` sits under uid key 10, so for the pair `("a", "p")` the claimed iff
fails: a uid key containing the process exists while no directory for
`"a"` exists for any user. -/
theorem C3_counterexample :
    ("a", "p") ∈ hideC3 ∧ "a" ≠ ISOLATED_MAGIC
    ∧ "p" ∈ update_uid_map usersC3 hideC3 psC3 10
    ∧ ¬ ∃ u ∈ usersC3, (psC3 u "a").isSome = true := by
  decide

/-- C3 (amended): after `refresh()`, for every `(package, process)` in the
hide set with `package` not the isolated sentinel: (i) whenever the package
directory exists under some user with owning uid `uid`, the list under key
`uid` contains `process`; (ii) the full iff of the claim — some uid key's
list contains `process` exactly when the directory exists for some user —
holds provided no other hide-set pair carries the same process name; and
(iii) the map holds no stale entries: every value in the rebuilt map is the
process name of some pair of the current hide set. -/
theorem C3_refresh_map (users : List String) (hide : List (String × String))
    (ps : String → String → Option Int) (package process : String)
    (hpair : (package, process) ∈ hide) (hniso : package ≠ ISOLATED_MAGIC) :
    (∀ u ∈ users, ∀ uid, ps u package = some uid →
      process ∈ update_uid_map users hide ps uid)
    ∧ ((∀ h ∈ hide, h.2 = process → h.1 = package) →
      ((∃ k, process ∈ update_uid_map users hide ps k)
        ↔ ∃ u ∈ users, (ps u package).isSome = true))
    ∧ (∀ k v, v ∈ update_uid_map users hide ps k → ∃ h ∈ hide, h.2 = v) := by
  refine ⟨?_, ?_, ?_⟩
  · intro u hu uid hps
    exact mem_update_uid_map_complete hu hpair hniso hps
  · intro huniq
    constructor
    · rintro ⟨k, hk⟩
      obtain ⟨h, hh, hveq, hcase⟩ := mem_update_uid_map_sound hk
      have hp : h.1 = package := huniq h hh hveq.symm
      rcases hcase with ⟨hiso, _⟩ | ⟨u, hu, hps⟩
      · rw [hp] at hiso
        exact absurd hiso hniso
      · refine ⟨u, hu, ?_⟩
        rw [← hp, hps]
        rfl
    · rintro ⟨u, hu, hsome⟩
      obtain ⟨uid, huid⟩ := Option.isSome_iff_exists.mp hsome
      exact ⟨uid, mem_update_uid_map_complete hu hpair hniso huid⟩
  · intro k v hv
    obtain ⟨h, hh, hveq, _⟩ := mem_update_uid_map_sound hv
    exact ⟨h, hh, hveq.symm⟩

/-- C3 witness: pair `("b", "p")` with its directory present under user
`"0"` and owning uid 10 lands in the map under key 10. -/
theorem C3_witness : "p" ∈ update_uid_map usersC3 hideC3 psC3 10 :=
  (C3_refresh_map usersC3 hideC3 psC3 "b" "p" (by decide) (by decide)).1
    "0" (by decide) 10 (by decide)

/-- C5: a second `attach(pid)` (`new_zygote`) on an already-registered
zygote with a readable namespace leaves exactly one registry entry for that
pid, updates the stored namespace identity to the newly observed value, and
issues no ptrace request at all (in particular no second attach); with an
unreadable namespace the call returns with the registry unchanged. -/
theorem C5_zygote_reattach (pid : Int) (fs : ProcFs) (z : ZMap)
    (hnd : ZNodup z) (hreg : (zlookup z pid).isSome = true) :
    (∀ ns, fs.mntNs pid = some ns →
      ((new_zygote pid fs z).1.countP (fun e => e.1 == pid) = 1
        ∧ zlookup (new_zygote pid fs z).1 pid = some ns
        ∧ (new_zygote pid fs z).2 = []))
    ∧ (fs.mntNs pid = none → new_zygote pid fs z = (z, [])) := by
  constructor
  · intro ns hns
    have h1 : (new_zygote pid fs z).1 = zupdate z pid ns := by
      simp [new_zygote, hns, hreg]
    have h2 : (new_zygote pid fs z).2 = [] := by
      simp [new_zygote, hns, hreg]
    refine ⟨?_, ?_, h2⟩
    · rw [h1, countP_zupdate]
      exact countP_eq_one_of_nodup z pid hnd hreg
    · rw [h1]
      exact zlookup_zupdate_self z pid ns hreg
  · intro hns
    simp [new_zygote, hns]

/-- C5 witness: re-attaching registered zygote 40, whose namespace now
reads `(7, 8)`. -/
theorem C5_witness :
    (new_zygote 40 fsW zW).1.countP (fun e => e.1 == 40) = 1
    ∧ zlookup (new_zygote 40 fsW zW).1 40 = some (NsId.mk 7 8)
    ∧ (new_zygote 40 fsW zW).2 = [] :=
  (C5_zygote_reattach 40 fsW zW (by unfold ZNodup; decide) (by decide)).1
    (NsId.mk 7 8) rfl

/-- C7: after a zygote scan, the periodic timer is disarmed exactly when the
registry has reached the architecture count (2 entries on 64-bit builds, 1
on 32-bit); with fewer entries no disarm is issued, and every scanned pid
meeting the zygote criteria (readable cmdline starting with `zygote`,
parent pid 1) with a readable namespace is tracked in the registry —
extra zygotes beyond the expected count included. -/
theorem C7_zygote_scan_timer (lp64 : Bool) (pids : List Int) (fs : ProcFs)
    (z : ZMap) :
    (Effect.disarmTimer ∈ (check_zygote lp64 pids fs z).2
      ↔ is_zygote_done lp64 (check_zygote lp64 pids fs z).1 = true)
    ∧ (∀ pid ∈ pids, zygote_criteria fs pid = true →
        (fs.mntNs pid).isSome = true →
        (zlookup (check_zygote lp64 pids fs z).1 pid).isSome = true) := by
  have hmap : (check_zygote lp64 pids fs z).1 = (cz_scan fs pids (z, [])).1 := by
    simp only [check_zygote]
    split <;> rfl
  constructor
  · cases hdone : is_zygote_done lp64 (cz_scan fs pids (z, [])).1 with
    | true => simp [check_zygote, hdone]
    | false =>
      have hno := disarm_not_mem_cz_scan fs pids (z, []) (by simp)
      simp [check_zygote, hdone, hno]
  · intro pid hmem hc hns
    rw [hmap]
    exact cz_scan_registers fs pids pid hc hns (z, []) hmem

/-- C7 witness: a 32-bit scan discovering the single zygote pid 40 disarms
the timer and registers pid 40. -/
theorem C7_witness :
    Effect.disarmTimer ∈ (check_zygote false [40] fs7 []).2
    ∧ (zlookup (check_zygote false [40] fs7 []).1 40).isSome = true := by
  constructor
  · exact (C7_zygote_scan_timer false [40] fs7 []).1.mpr (by decide)
  · exact (C7_zygote_scan_timer false [40] fs7 []).2 40 (by decide)
      (by decide) (by decide)

/-- C10 witness: pid 5 is in bounds, pid 40000 is not. -/
theorem C10_witness : pid_set_in_bounds 5 ∧ ¬ pid_set_in_bounds 40000 := by
  constructor
  · exact (C10_pid_set_bounds 5 (by norm_num [SIZE_T_CARD])).mpr
      (by norm_num [PID_MAX])
  · intro hb
    have h := (C10_pid_set_bounds 40000 (by norm_num [SIZE_T_CARD])).mp hb
    norm_num [PID_MAX] at h

end ProcMonitor
